import Mathlib

/-!
Verification of the transaction-series derivation and edit-propagation core of a
personal-finance web client.  The embedding below is a shallow model of the two
core handlers of `App.tsx` (`handleAddTransaction`, the Series Expander, and
`handleEditTransaction`, the Series Resolver & Edit Propagator), together with
the description-suffix grammar they share.

Modelling conventions:
* Strings that undergo pattern matching (descriptions) are `List Char`;
  identifiers/categories stay `String`.
* Calendar dates `YYYY-MM-DD` are `CalDate` records; JS `Date.setMonth`
  normalisation (month overflow rolls into the following month/year, day
  overflow rolls into the following month) is `addMonths`, evaluated in UTC.
* JS floating-point amounts are modelled as rationals; `Number.toFixed(2)`
  followed by `parseFloat` is modelled as rounding to 2 decimal places.
* The JS regexes `/\s\(\d+\/\d+\)$/` and `/\s\(Parcela \d+\)$/` are modelled
  by explicit right-to-left parsers; `\s` is modelled by the ASCII whitespace
  characters.
* A JS `Map` keyed by `id` (insertion order preserved, last write wins) is an
  association list of transactions with unique ids, built by `setEntry`.
* `Array.prototype.sort` with comparator `new Date(b.date) - new Date(a.date)`
  is modelled by insertion sort under the `dateGe` (date-descending) relation.
-/

set_option linter.unusedVariables false

/-! ## Shared description-suffix grammar -/

/-- ASCII whitespace characters matched by the JS regex class `\s`. -/
def isWsChar (c : Char) : Bool :=
  c == ' ' || c == '\t' || c == '\n' || c == '\r' || c == '\x0b' || c == '\x0c'

/-- Consume a closing parenthesis at the head (of a reversed description). -/
def expectClose : List Char → Option (List Char)
  | ')' :: r => some r
  | _ => none

/-- Consume a non-empty run of decimal digits, returning it and the rest. -/
def takeDigits1 (l : List Char) : Option (List Char × List Char) :=
  let d := l.takeWhile Char.isDigit
  if d.isEmpty then none else some (d, l.dropWhile Char.isDigit)

/-- Consume a slash at the head. -/
def expectSlash : List Char → Option (List Char)
  | '/' :: r => some r
  | _ => none

/-- Consume an opening parenthesis followed by one whitespace character
(reading the reversed string, this is the ` (` that starts either suffix). -/
def expectOpenWs : List Char → Option (Char × List Char)
  | '(' :: c :: r => if isWsChar c then some (c, r) else none
  | _ => none

/-- Consume the reversed literal `"(Parcela "` followed by one whitespace
character. -/
def expectParcelaTail : List Char → Option (Char × List Char)
  | ' ' :: 'a' :: 'l' :: 'e' :: 'c' :: 'r' :: 'a' :: 'P' :: '(' :: c :: r =>
      if isWsChar c then some (c, r) else none
  | _ => none

/-- Match the regex `/\s\(\d+\/\d+\)$/` against a reversed description.
Returns (reversed base, reversed matched suffix). -/
def splitMatchRev (rs : List Char) : Option (List Char × List Char) :=
  (expectClose rs).bind fun r1 =>
  (takeDigits1 r1).bind fun p2 =>
  (expectSlash p2.2).bind fun r3 =>
  (takeDigits1 r3).bind fun p1 =>
  (expectOpenWs p1.2).map fun pc =>
  (pc.2, ')' :: p2.1 ++ '/' :: p1.1 ++ ['(', pc.1])

/-- Match the regex `/\s\(Parcela \d+\)$/` against a reversed description.
Returns (reversed base, reversed matched suffix). -/
def parcelaMatchRev (rs : List Char) : Option (List Char × List Char) :=
  (expectClose rs).bind fun r1 =>
  (takeDigits1 r1).bind fun p =>
  (expectParcelaTail p.2).map fun pc =>
  (pc.2, ')' :: p.1 ++ ' ' :: 'a' :: 'l' :: 'e' :: 'c' :: 'r' :: 'a' :: 'P' :: '(' :: [pc.1])

/-- `description.match(/\s\(\d+\/\d+\)$/)`: the base before the suffix and the
matched suffix, if the installment pattern matches at the end. -/
def splitMatch (d : List Char) : Option (List Char × List Char) :=
  (splitMatchRev d.reverse).map fun p => (p.1.reverse, p.2.reverse)

/-- `description.match(/\s\(Parcela \d+\)$/)`: the base before the suffix and
the matched suffix, if the legacy pattern matches at the end. -/
def parcelaMatch (d : List Char) : Option (List Char × List Char) :=
  (parcelaMatchRev d.reverse).map fun p => (p.1.reverse, p.2.reverse)

/-- `description.replace(/\s\(\d+\/\d+\)$/, '')`. -/
def removeSplit (d : List Char) : List Char :=
  match splitMatch d with
  | some p => p.1
  | none => d

/-- `description.replace(/\s\(Parcela \d+\)$/, '')`. -/
def removeParcela (d : List Char) : List Char :=
  match parcelaMatch d with
  | some p => p.1
  | none => d

/-- JS `String.prototype.trim()`: strip whitespace from both ends. -/
def trimList (l : List Char) : List Char :=
  ((l.dropWhile isWsChar).reverse.dropWhile isWsChar).reverse

/-- The `cleanDesc` computation of `handleEditTransaction`:
`original.description.replace(/\s\(\d+\/\d+\)$/, '').replace(/\s\(Parcela \d+\)$/, '').trim()`. -/
def cleanDesc (d : List Char) : List Char :=
  trimList (removeParcela (removeSplit d))

/-- The suffix reattached by `handleEditTransaction`: the `matchSplit[0]`
match if present, else the `matchParcela[0]` match if present, else nothing. -/
def matchedSuffix (d : List Char) : List Char :=
  match splitMatch d with
  | some p => p.2
  | none =>
    match parcelaMatch d with
    | some p => p.2
    | none => []

/-- JS `String.prototype.includes`: substring containment. -/
def myIncludes : List Char → List Char → Bool
  | [], needle => needle.isEmpty
  | c :: t, needle => needle.isPrefixOf (c :: t) || myIncludes t needle

/-! ## Data model -/

/-- A calendar date `YYYY-MM-DD` (month 1-12). -/
structure CalDate where
  y : Nat
  m : Nat
  d : Nat
deriving DecidableEq, Repr

inductive TransactionType where
  | income
  | expense
deriving DecidableEq, Repr

/-- A stored transaction occurrence (interface `Transaction` of `types.ts`). -/
structure Transaction where
  id : String
  groupId : Option String
  amount : ℚ
  category : String
  account : String
  date : CalDate
  description : List Char
  type : TransactionType
  isRecurring : Bool
  isPaid : Bool
deriving DecidableEq, Repr

/-- A not-yet-persisted occurrence (`Omit<Transaction, 'id'>` as pushed by
`handleAddTransaction`, which never sets `account`). -/
structure NewTransaction where
  groupId : Option String
  amount : ℚ
  category : String
  description : List Char
  date : CalDate
  type : TransactionType
  isRecurring : Bool
  isPaid : Bool
deriving DecidableEq, Repr

/-- The edit payload handed to `handleEditTransaction` (the `updates` object
built by the QuickAdd form: amount, category, description, date, type,
recurrence flag, paid flag). -/
structure TxUpdate where
  amount : ℚ
  category : String
  description : List Char
  date : CalDate
  type : TransactionType
  isRecurring : Bool
  isPaid : Bool
deriving DecidableEq, Repr

/-- The arguments of `handleAddTransaction`. -/
structure AddInput where
  amount : ℚ
  category : String
  description : List Char
  date : CalDate
  type : TransactionType
  installments : Nat
  isRecurring : Bool
  currentInstallment : Nat
  isPaid : Bool
deriving DecidableEq, Repr

/-! ## Calendar arithmetic (JS `Date.setMonth` in UTC) -/

def isLeap (y : Nat) : Bool :=
  (y % 4 == 0 && y % 100 != 0) || y % 400 == 0

def daysInMonth (y m : Nat) : Nat :=
  if m = 2 then (if isLeap y then 29 else 28)
  else if m = 4 ∨ m = 6 ∨ m = 9 ∨ m = 11 then 30
  else 31

/-- `currentDate.setMonth(startDate.getMonth() + k)` on a copy of the start
date: months past December roll the year forward; a day-of-month beyond the
target month's length rolls into the following month (for calendar inputs,
day ≤ 31, a single rollover step suffices). -/
def addMonths (dt : CalDate) (k : Nat) : CalDate :=
  let m0 := dt.m - 1 + k
  let y := dt.y + m0 / 12
  let m := m0 % 12 + 1
  if dt.d ≤ daysInMonth y m then ⟨y, m, dt.d⟩
  else if m = 12 then ⟨y + 1, 1, dt.d - daysInMonth y m⟩
  else ⟨y, m + 1, dt.d - daysInMonth y m⟩

/-- `parseFloat(x.toFixed(2))`: round to two decimal places. -/
def roundTo2 (q : ℚ) : ℚ :=
  (round (q * 100) : ℚ) / 100

/-- The decimal rendering of a natural number, as interpolated into the
template literal building an installment description. -/
def natChars (n : Nat) : List Char :=
  (Nat.repr n).data

/-- The generated installment suffix `" (i/total)"`. -/
def numSuffix (i total : Nat) : List Char :=
  ' ' :: '(' :: natChars i ++ '/' :: natChars total ++ [')']

/-! ## Series Expander (`handleAddTransaction`) -/

/-- The list of occurrence records prepared by `handleAddTransaction`.
`freshId` stands for the value of `generateId()` used for the group id. -/
def handleAddTransaction (inp : AddInput) (freshId : String) : List NewTransaction :=
  let groupId : Option String :=
    if 1 < inp.installments ∨ inp.isRecurring = true then some ("grp_" ++ freshId) else none
  if inp.type = TransactionType.expense ∧ 1 < inp.installments then
    let installmentValue := roundTo2 (inp.amount / (inp.installments : ℚ))
    (List.range (inp.installments + 1 - inp.currentInstallment)).map fun offset =>
      { groupId := groupId
        amount := installmentValue
        category := inp.category
        description := inp.description ++ numSuffix (inp.currentInstallment + offset) inp.installments
        date := addMonths inp.date offset
        type := inp.type
        isRecurring := false
        isPaid := if inp.currentInstallment + offset = inp.currentInstallment then inp.isPaid else false }
  else if inp.isRecurring then
    (List.range 12).map fun i =>
      { groupId := groupId
        amount := inp.amount
        category := inp.category
        description := inp.description
        date := addMonths inp.date i
        type := inp.type
        isRecurring := true
        isPaid := if i = 0 then inp.isPaid else false }
  else
    [{ groupId := none
       amount := inp.amount
       category := inp.category
       description := inp.description
       date := inp.date
       type := inp.type
       isRecurring := inp.isRecurring
       isPaid := inp.isPaid }]

/-! ## Series Resolver & Edit Propagator (`handleEditTransaction`) -/

/-- JS truthiness of the `original.groupId` test (undefined and the empty
string are falsy). -/
def groupTruthy : Option String → Bool
  | none => false
  | some s => !s.isEmpty

/-- The sibling set computed by `handleEditTransaction`: by group identifier
when the target has a truthy one, else by the legacy heuristic (same type,
same category, description containing the stripped base description). -/
def siblingsOf (all : List Transaction) (original : Transaction) : List Transaction :=
  if groupTruthy original.groupId then
    all.filter fun t => t.groupId == original.groupId
  else
    all.filter fun t =>
      t.type == original.type && t.category == original.category &&
        myIncludes t.description (cleanDesc original.description)

/-- The per-sibling update payload: the caller's payload with the sibling's
own suffix reattached to the new base description, and date/paid flag taken
from the caller only for the target occurrence itself. -/
def mkSiblingUpdate (targetId : String) (updates : TxUpdate) (sibling : Transaction) : TxUpdate :=
  { updates with
    description := updates.description ++ matchedSuffix sibling.description
    date := if sibling.id = targetId then updates.date else sibling.date
    isPaid := if sibling.id = targetId then updates.isPaid else sibling.isPaid }

/-- The `transactionsToUpdate` list computed by `handleEditTransaction`:
`none` models the early `return` when a series edit's target is not found. -/
def transactionsToUpdate (all : List Transaction) (targetId : String) (updates : TxUpdate)
    (updateSeries : Bool) : Option (List (String × TxUpdate)) :=
  if updateSeries = false then
    some [(targetId, updates)]
  else
    match all.find? (fun t => t.id == targetId) with
    | none => none
    | some original =>
      some ((siblingsOf all original).map fun s => (s.id, mkSiblingUpdate targetId updates s))

/-- `{...existing, ...data}`: every field carried by the payload overwrites
the stored occurrence; `id`, `groupId` and `account` are not in the payload
and are kept. -/
def applyUpdate (t : Transaction) (u : TxUpdate) : Transaction :=
  { id := t.id
    groupId := t.groupId
    amount := u.amount
    category := u.category
    account := t.account
    date := u.date
    description := u.description
    type := u.type
    isRecurring := u.isRecurring
    isPaid := u.isPaid }

/-- `Map.set(t.id, t)`: replace the value at an existing key in place,
otherwise append a new entry. -/
def setEntry (m : List Transaction) (t : Transaction) : List Transaction :=
  if m.any (fun x => x.id == t.id) then
    m.map fun x => if x.id = t.id then t else x
  else
    m ++ [t]

/-- `new Map(prev.map(t => [t.id, t]))`: an association list keyed by id,
insertion order preserved, last write per id wins. -/
def buildMap (l : List Transaction) : List Transaction :=
  l.foldl setEntry []

/-- The local-fallback update step: `newMap.get(item.id)` followed by
`newMap.set(item.id, {...existing, ...item.data})` when the key exists;
a payload addressed to an unknown id is ignored. -/
def updateEntry (m : List Transaction) (tid : String) (u : TxUpdate) : List Transaction :=
  if m.any (fun x => x.id == tid) then
    m.map fun x => if x.id = tid then applyUpdate x u else x
  else
    m

def applyPayloads (m : List Transaction) (ps : List (String × TxUpdate)) : List Transaction :=
  ps.foldl (fun acc p => updateEntry acc p.1 p.2) m

/-! ## Date-descending sort (`sort((a,b) => new Date(b.date) - new Date(a.date))`) -/

/-- A monotone key for `YYYY-MM-DD` dates (matches the comparison of parsed
timestamps for calendar dates). -/
def dateKey (dt : CalDate) : Nat :=
  dt.y * 10000 + dt.m * 100 + dt.d

/-- `a` sorts no later than `b` in date-descending order. -/
def dateGe (a b : Transaction) : Prop :=
  dateKey b.date ≤ dateKey a.date

instance : DecidableRel dateGe := fun a b => Nat.decLe _ _

instance : IsTotal Transaction dateGe :=
  ⟨fun a b => Nat.le_total (dateKey b.date) (dateKey a.date)⟩

instance : IsTrans Transaction dateGe :=
  ⟨fun a b c h1 h2 => Nat.le_trans h2 h1⟩

def sortDesc (l : List Transaction) : List Transaction :=
  List.insertionSort dateGe l

/-- The local (no-backend) branch of `handleEditTransaction`: compute the
payload list, apply each against the id-keyed map of the previous state,
re-sort by date descending.  A `none` payload list is the early return. -/
def handleEditTransactionLocal (all : List Transaction) (targetId : String) (updates : TxUpdate)
    (updateSeries : Bool) : List Transaction :=
  match transactionsToUpdate all targetId updates updateSeries with
  | none => all
  | some ps => sortDesc (applyPayloads (buildMap all) ps)

/-- Fold the per-call results of `financeService.updateTransaction` into the
id-keyed map: each non-null result is `Map.set`, null results are skipped. -/
def mergeResults (m : List Transaction) (results : List (Option Transaction)) : List Transaction :=
  results.foldl
    (fun acc r => match r with
      | some t => setEntry acc t
      | none => acc)
    m

/-- The reconciliation step of the backend branch of `handleEditTransaction`:
if some result is non-null, merge all non-null results into the map of the
previous state and sort date-descending; otherwise leave the state untouched. -/
def reconcileResults (prev : List Transaction) (results : List (Option Transaction)) :
    List Transaction :=
  if results.any Option.isSome then
    sortDesc (mergeResults (buildMap prev) results)
  else prev

/-- The identifiers of the successful (non-null) update results. -/
def successIds (results : List (Option Transaction)) : List String :=
  (results.filterMap fun r => r).map Transaction.id

/-! ## Concrete sample data for witnesses and counterexamples -/

/-- The spec's worked installment example: amount 300, category Compras,
description TV, expense, 3 installments starting at 1, dated 2024-01-15. -/
def inpTV : AddInput :=
  { amount := 300, category := "Compras", description := "TV".data,
    date := ⟨2024, 1, 15⟩, type := TransactionType.expense,
    installments := 3, isRecurring := false, currentInstallment := 1, isPaid := true }

/-- An income entry with installment count 2 and recurrence off: the expander
takes the single branch. -/
def inpIncomeTwo : AddInput :=
  { amount := 10, category := "Salario", description := "Bonus".data,
    date := ⟨2024, 1, 15⟩, type := TransactionType.income,
    installments := 2, isRecurring := false, currentInstallment := 1, isPaid := true }

def txA : Transaction :=
  ⟨"a", some "grp_1", 100, "Compras", "", ⟨2024, 1, 15⟩, "TV (1/3)".data,
    TransactionType.expense, false, true⟩

def txB : Transaction :=
  ⟨"b", some "grp_1", 100, "Compras", "", ⟨2024, 2, 15⟩, "TV (2/3)".data,
    TransactionType.expense, false, false⟩

def txC : Transaction :=
  ⟨"c", none, 50, "Lazer", "", ⟨2024, 3, 1⟩, "Cinema".data,
    TransactionType.expense, false, true⟩

def updSample : TxUpdate :=
  ⟨120, "Eletronicos", "Televisao".data, ⟨2024, 2, 20⟩,
    TransactionType.expense, false, true⟩

/-! ## Parser soundness lemmas -/

theorem expectClose_eq {l r : List Char} (h : expectClose l = some r) : l = ')' :: r := by
  unfold expectClose at h
  split at h
  · simp_all
  · simp at h

theorem takeDigits1_eq {l : List Char} {p : List Char × List Char}
    (h : takeDigits1 l = some p) : p.1 ++ p.2 = l := by
  simp only [takeDigits1] at h
  split at h
  · simp at h
  · simp only [Option.some.injEq] at h
    subst h
    exact List.takeWhile_append_dropWhile _ _

theorem expectSlash_eq {l r : List Char} (h : expectSlash l = some r) : l = '/' :: r := by
  unfold expectSlash at h
  split at h
  · simp_all
  · simp at h

theorem expectOpenWs_eq {l : List Char} {p : Char × List Char}
    (h : expectOpenWs l = some p) : l = '(' :: p.1 :: p.2 := by
  unfold expectOpenWs at h
  split at h
  · split at h
    · simp only [Option.some.injEq] at h
      subst h
      simp_all
    · simp at h
  · simp at h

theorem expectParcelaTail_eq {l : List Char} {p : Char × List Char}
    (h : expectParcelaTail l = some p) :
    l = ' ' :: 'a' :: 'l' :: 'e' :: 'c' :: 'r' :: 'a' :: 'P' :: '(' :: p.1 :: p.2 := by
  unfold expectParcelaTail at h
  split at h
  · split at h
    · simp only [Option.some.injEq] at h
      subst h
      simp_all
    · simp at h
  · simp at h

theorem splitMatchRev_sound {rs : List Char} {p : List Char × List Char}
    (h : splitMatchRev rs = some p) : p.2 ++ p.1 = rs := by
  unfold splitMatchRev at h
  simp only [Option.bind_eq_some, Option.map_eq_some'] at h
  obtain ⟨r1, h1, p2, h2, r3, h3, p1, h4, pc, h5, hp⟩ := h
  obtain ⟨d2, r2⟩ := p2
  obtain ⟨d1, r4⟩ := p1
  obtain ⟨c, r5⟩ := pc
  subst hp
  obtain rfl := expectClose_eq h1
  have e2 := takeDigits1_eq h2
  simp only at e2
  have e3 := expectSlash_eq h3
  simp only at e3
  have e4 := takeDigits1_eq h4
  simp only at e4
  have e5 := expectOpenWs_eq h5
  simp only at e5
  subst e2
  subst e3
  subst e4
  subst e5
  simp

theorem parcelaMatchRev_sound {rs : List Char} {p : List Char × List Char}
    (h : parcelaMatchRev rs = some p) : p.2 ++ p.1 = rs := by
  unfold parcelaMatchRev at h
  simp only [Option.bind_eq_some, Option.map_eq_some'] at h
  obtain ⟨r1, h1, q, h2, pc, h3, hp⟩ := h
  obtain ⟨ds, r2⟩ := q
  obtain ⟨c, r3⟩ := pc
  subst hp
  obtain rfl := expectClose_eq h1
  have e2 := takeDigits1_eq h2
  simp only at e2
  have e3 := expectParcelaTail_eq h3
  simp only at e3
  subst e2
  subst e3
  simp

theorem splitMatch_sound {d : List Char} {p : List Char × List Char}
    (h : splitMatch d = some p) : p.1 ++ p.2 = d := by
  unfold splitMatch at h
  simp only [Option.map_eq_some'] at h
  obtain ⟨q, hq, hp⟩ := h
  have hs := splitMatchRev_sound hq
  subst hp
  simp only
  rw [← List.reverse_append, hs, List.reverse_reverse]

theorem parcelaMatch_sound {d : List Char} {p : List Char × List Char}
    (h : parcelaMatch d = some p) : p.1 ++ p.2 = d := by
  unfold parcelaMatch at h
  simp only [Option.map_eq_some'] at h
  obtain ⟨q, hq, hp⟩ := h
  have hs := parcelaMatchRev_sound hq
  subst hp
  simp only
  rw [← List.reverse_append, hs, List.reverse_reverse]

theorem parcela_split_exclusiveRev {rs : List Char} {p : List Char × List Char}
    (h : parcelaMatchRev rs = some p) : splitMatchRev rs = none := by
  unfold parcelaMatchRev at h
  simp only [Option.bind_eq_some, Option.map_eq_some'] at h
  obtain ⟨r1, h1, q, h2, pc, h3, hp⟩ := h
  have e3 := expectParcelaTail_eq h3
  unfold splitMatchRev
  rw [h1, Option.some_bind, h2, Option.some_bind, e3]
  rfl

theorem parcela_split_exclusive {d : List Char} {p : List Char × List Char}
    (h : parcelaMatch d = some p) : splitMatch d = none := by
  unfold parcelaMatch at h
  simp only [Option.map_eq_some'] at h
  obtain ⟨q, hq, hp⟩ := h
  unfold splitMatch
  rw [parcela_split_exclusiveRev hq]
  rfl

/-! ## Stripping is substring-preserving -/

theorem removeSplit_isPre (d : List Char) : removeSplit d <+: d := by
  unfold removeSplit
  split
  · rename_i p hp
    exact ⟨p.2, splitMatch_sound hp⟩
  · exact ⟨[], List.append_nil d⟩

theorem removeParcela_isPre (d : List Char) : removeParcela d <+: d := by
  unfold removeParcela
  split
  · rename_i p hp
    exact ⟨p.2, parcelaMatch_sound hp⟩
  · exact ⟨[], List.append_nil d⟩

theorem trimList_isInf (l : List Char) : trimList l <:+: l := by
  have h1 : l.dropWhile isWsChar <:+ l := List.dropWhile_suffix _
  have h2 : (l.dropWhile isWsChar).reverse.dropWhile isWsChar <:+
      (l.dropWhile isWsChar).reverse := List.dropWhile_suffix _
  have h3 : trimList l <+: l.dropWhile isWsChar := by
    apply List.reverse_suffix.mp
    unfold trimList
    rw [List.reverse_reverse]
    exact h2
  exact (h3.isInfix).trans h1.isInfix

theorem cleanDesc_isInf (d : List Char) : cleanDesc d <:+: d := by
  have h1 : removeParcela (removeSplit d) <+: d :=
    (removeParcela_isPre (removeSplit d)).trans (removeSplit_isPre d)
  exact (trimList_isInf _).trans h1.isInfix

theorem myIncludes_iff (hay needle : List Char) :
    myIncludes hay needle = true ↔ needle <:+: hay := by
  induction hay with
  | nil =>
    simp [myIncludes, List.isEmpty_iff]
  | cons c t ih =>
    rw [List.infix_cons_iff]
    simp [myIncludes, List.isPrefixOf_iff_prefix, ih]

/-! ## Id-keyed map lemmas -/

theorem setEntry_mem_cases {m : List Transaction} {t s : Transaction}
    (h : t ∈ setEntry m s) : t ∈ m ∨ t = s := by
  unfold setEntry at h
  split at h
  · obtain ⟨x, hx, hxt⟩ := List.mem_map.mp h
    by_cases hid : x.id = s.id
    · rw [if_pos hid] at hxt
      exact Or.inr hxt.symm
    · rw [if_neg hid] at hxt
      exact Or.inl (hxt ▸ hx)
  · rcases List.mem_append.mp h with h' | h'
    · exact Or.inl h'
    · exact Or.inr (List.mem_singleton.mp h')

theorem setEntry_mem_self (m : List Transaction) (t : Transaction) : t ∈ setEntry m t := by
  unfold setEntry
  split
  · rename_i hany
    obtain ⟨x, hx, hxt⟩ := List.any_eq_true.mp hany
    refine List.mem_map.mpr ⟨x, hx, ?_⟩
    rw [if_pos (by simpa using hxt)]
  · exact List.mem_append.mpr (Or.inr (List.mem_singleton.mpr rfl))

theorem setEntry_mem_of_ne {m : List Transaction} {t : Transaction} (s : Transaction)
    (ht : t ∈ m) (hne : t.id ≠ s.id) : t ∈ setEntry m s := by
  unfold setEntry
  split
  · exact List.mem_map.mpr ⟨t, ht, by rw [if_neg hne]⟩
  · exact List.mem_append.mpr (Or.inl ht)

theorem foldl_setEntry_mem {l : List Transaction} {t : Transaction} :
    ∀ (acc : List Transaction), t ∈ List.foldl setEntry acc l → t ∈ acc ∨ t ∈ l := by
  induction l with
  | nil => exact fun acc h => Or.inl h
  | cons x xs ih =>
    intro acc h
    rcases ih (setEntry acc x) h with h' | h'
    · rcases setEntry_mem_cases h' with h'' | h''
      · exact Or.inl h''
      · exact Or.inr (h'' ▸ List.mem_cons_self x xs)
    · exact Or.inr (List.mem_cons_of_mem x h')

theorem buildMap_subset {l : List Transaction} {t : Transaction}
    (h : t ∈ buildMap l) : t ∈ l := by
  rcases foldl_setEntry_mem [] h with h' | h'
  · simp at h'
  · exact h'

theorem foldl_setEntry_eq_of_nodup :
    ∀ (l acc : List Transaction), ((acc ++ l).map Transaction.id).Nodup →
      List.foldl setEntry acc l = acc ++ l := by
  intro l
  induction l with
  | nil => simp
  | cons x xs ih =>
    intro acc hnd
    have hx : x.id ∉ acc.map Transaction.id := by
      intro hmem
      rw [List.map_append] at hnd
      have hdisj := List.disjoint_of_nodup_append hnd
      exact hdisj hmem (by simp)
    have hstep : setEntry acc x = acc ++ [x] := by
      unfold setEntry
      rw [if_neg ?hne]
      case hne =>
        intro hany
        obtain ⟨a, ha, hai⟩ := List.any_eq_true.mp hany
        exact hx (List.mem_map.mpr ⟨a, ha, by simpa using hai⟩)
    have hnd' : (((acc ++ [x]) ++ xs).map Transaction.id).Nodup := by
      simpa using hnd
    calc List.foldl setEntry acc (x :: xs)
        = List.foldl setEntry (acc ++ [x]) xs := by rw [List.foldl_cons, hstep]
      _ = (acc ++ [x]) ++ xs := ih (acc ++ [x]) hnd'
      _ = acc ++ x :: xs := by simp

theorem buildMap_eq_of_nodup {l : List Transaction}
    (h : (l.map Transaction.id).Nodup) : buildMap l = l := by
  have := foldl_setEntry_eq_of_nodup l [] (by simpa using h)
  simpa [buildMap] using this

theorem setEntry_ids_mem {m : List Transaction} {t : Transaction} {s : String} :
    s ∈ (setEntry m t).map Transaction.id ↔ s ∈ m.map Transaction.id ∨ s = t.id := by
  unfold setEntry
  split
  · rename_i hany
    obtain ⟨x, hx, hxt⟩ := List.any_eq_true.mp hany
    have hids : (m.map fun x => if x.id = t.id then t else x).map Transaction.id
        = m.map Transaction.id := by
      rw [List.map_map]
      apply List.map_congr_left
      intro a ha
      by_cases h : a.id = t.id
      · simp [h]
      · simp [h]
    rw [hids]
    constructor
    · exact Or.inl
    · rintro (h | rfl)
      · exact h
      · exact List.mem_map.mpr ⟨x, hx, by simpa using hxt⟩
  · simp [List.map_append, or_comm, eq_comm]

theorem foldl_setEntry_ids_mem {l : List Transaction} {s : String} :
    ∀ {acc : List Transaction},
      (s ∈ (List.foldl setEntry acc l).map Transaction.id ↔
        s ∈ acc.map Transaction.id ∨ s ∈ l.map Transaction.id) := by
  induction l with
  | nil => simp
  | cons x xs ih =>
    intro acc
    rw [List.foldl_cons, ih, setEntry_ids_mem]
    simp only [List.map_cons, List.mem_cons]
    tauto

theorem buildMap_ids_mem {l : List Transaction} {s : String} :
    s ∈ (buildMap l).map Transaction.id ↔ s ∈ l.map Transaction.id := by
  unfold buildMap
  rw [foldl_setEntry_ids_mem]
  simp

theorem applyUpdate_id (t : Transaction) (u : TxUpdate) : (applyUpdate t u).id = t.id := rfl

theorem updateEntry_mem_of_ne {m : List Transaction} {t : Transaction} {tid : String}
    (u : TxUpdate) (ht : t ∈ m) (hne : t.id ≠ tid) : t ∈ updateEntry m tid u := by
  unfold updateEntry
  split
  · exact List.mem_map.mpr ⟨t, ht, by rw [if_neg hne]⟩
  · exact ht

theorem updateEntry_mem_rev {m : List Transaction} {t : Transaction} {tid : String}
    {u : TxUpdate} (ht : t ∈ updateEntry m tid u) (hne : t.id ≠ tid) : t ∈ m := by
  unfold updateEntry at ht
  split at ht
  · obtain ⟨x, hx, hxt⟩ := List.mem_map.mp ht
    by_cases hid : x.id = tid
    · rw [if_pos hid] at hxt
      exact absurd (by rw [← hxt, applyUpdate_id, hid]) hne
    · rw [if_neg hid] at hxt
      exact hxt ▸ hx
  · exact ht

theorem updateEntry_ids (m : List Transaction) (tid : String) (u : TxUpdate) :
    (updateEntry m tid u).map Transaction.id = m.map Transaction.id := by
  unfold updateEntry
  split
  · rw [List.map_map]
    apply List.map_congr_left
    intro a ha
    by_cases h : a.id = tid
    · simp [h, applyUpdate_id]
    · simp [h]
  · rfl

theorem applyPayloads_ids (ps : List (String × TxUpdate)) :
    ∀ (m : List Transaction),
      (applyPayloads m ps).map Transaction.id = m.map Transaction.id := by
  induction ps with
  | nil => intro m; rfl
  | cons p ps ih =>
    intro m
    calc (applyPayloads (updateEntry m p.1 p.2) ps).map Transaction.id
        = (updateEntry m p.1 p.2).map Transaction.id := ih _
      _ = m.map Transaction.id := updateEntry_ids m p.1 p.2

theorem sortDesc_sorted (l : List Transaction) : List.Sorted dateGe (sortDesc l) :=
  List.sorted_insertionSort dateGe l

theorem sortDesc_perm (l : List Transaction) : List.Perm (sortDesc l) l :=
  List.perm_insertionSort dateGe l

theorem sortDesc_mem {l : List Transaction} {t : Transaction} :
    t ∈ sortDesc l ↔ t ∈ l :=
  (sortDesc_perm l).mem_iff

/-! ## Reconciliation lemmas -/

theorem successIds_cons_some (s : Transaction) (rs : List (Option Transaction)) :
    successIds (some s :: rs) = s.id :: successIds rs := by
  simp [successIds]

theorem successIds_cons_none (rs : List (Option Transaction)) :
    successIds (none :: rs) = successIds rs := by
  simp [successIds]

theorem mergeResults_mem_of_notin {results : List (Option Transaction)} {t : Transaction} :
    ∀ {m : List Transaction}, t ∈ m → t.id ∉ successIds results →
      t ∈ mergeResults m results := by
  induction results with
  | nil => exact fun ht _ => ht
  | cons r rs ih =>
    intro m ht hnot
    cases r with
    | none =>
      rw [successIds_cons_none] at hnot
      show t ∈ mergeResults m rs
      exact ih ht hnot
    | some s =>
      rw [successIds_cons_some] at hnot
      have h1 : t.id ≠ s.id ∧ t.id ∉ successIds rs := by
        simpa [List.mem_cons, not_or] using hnot
      show t ∈ mergeResults (setEntry m s) rs
      exact ih (setEntry_mem_of_ne s ht h1.1) h1.2

theorem mergeResults_mem_success {results : List (Option Transaction)} {t : Transaction} :
    ∀ {m : List Transaction}, some t ∈ results → (successIds results).Nodup →
      t ∈ mergeResults m results := by
  induction results with
  | nil => simp
  | cons r rs ih =>
    intro m hmem hnd
    rcases List.mem_cons.mp hmem with heq | hmem'
    · subst heq
      rw [successIds_cons_some] at hnd
      obtain ⟨hnotin, hnd'⟩ := List.nodup_cons.mp hnd
      show t ∈ mergeResults (setEntry m t) rs
      exact mergeResults_mem_of_notin (setEntry_mem_self m t) hnotin
    · cases r with
      | none =>
        rw [successIds_cons_none] at hnd
        show t ∈ mergeResults m rs
        exact ih hmem' hnd
      | some s =>
        rw [successIds_cons_some] at hnd
        obtain ⟨hnotmem, hnd'⟩ := List.nodup_cons.mp hnd
        show t ∈ mergeResults (setEntry m s) rs
        exact ih hmem' hnd'

/-! ## Claim C1: installment-mode series shape -/

theorem handleAdd_installment_eq (inp : AddInput) (freshId : String)
    (htype : inp.type = TransactionType.expense) (hn : 1 < inp.installments) :
    handleAddTransaction inp freshId
      = (List.range (inp.installments + 1 - inp.currentInstallment)).map fun offset =>
          { groupId := some ("grp_" ++ freshId)
            amount := roundTo2 (inp.amount / (inp.installments : ℚ))
            category := inp.category
            description :=
              inp.description ++ numSuffix (inp.currentInstallment + offset) inp.installments
            date := addMonths inp.date offset
            type := inp.type
            isRecurring := false
            isPaid :=
              if inp.currentInstallment + offset = inp.currentInstallment
              then inp.isPaid else false } := by
  unfold handleAddTransaction
  rw [if_pos (Or.inl hn), if_pos ⟨htype, hn⟩]

/-- C1: for every installment-mode input (expense, installment count n > 1,
starting index s with 1 ≤ s ≤ n), `handleAddTransaction` emits exactly
n − s + 1 occurrence records; the j-th record (i = s + j) is described as the
base description followed by `" (i/n)"`, dated the start date plus j calendar
months, carries the one freshly generated group identifier, and has its
recurrence flag false. -/
theorem installment_series_shape (inp : AddInput) (freshId : String)
    (htype : inp.type = TransactionType.expense)
    (hs1 : 1 ≤ inp.currentInstallment)
    (hsn : inp.currentInstallment ≤ inp.installments)
    (hn : 1 < inp.installments) :
    (handleAddTransaction inp freshId).length
        = inp.installments - inp.currentInstallment + 1 ∧
    ∀ (j : Nat) (hj : j < (handleAddTransaction inp freshId).length),
      (((handleAddTransaction inp freshId).get ⟨j, hj⟩).description
          = inp.description ++ numSuffix (inp.currentInstallment + j) inp.installments) ∧
      (((handleAddTransaction inp freshId).get ⟨j, hj⟩).date = addMonths inp.date j) ∧
      (((handleAddTransaction inp freshId).get ⟨j, hj⟩).groupId = some ("grp_" ++ freshId)) ∧
      (((handleAddTransaction inp freshId).get ⟨j, hj⟩).isRecurring = false) := by
  have key := handleAdd_installment_eq inp freshId htype hn
  constructor
  · rw [key]
    simp only [List.length_map, List.length_range]
    omega
  · intro j hj
    rw [List.get_of_eq key]
    simp [List.get_eq_getElem, List.getElem_map, List.getElem_range]

/-- Witness for C1 at the spec's worked example (TV, 300, 3 installments from
index 1): the expander emits 3 records and the middle one is
`"TV (2/3)"` dated one month after the start. -/
theorem installment_series_shape_witness :
    (handleAddTransaction inpTV "g").length = 3 ∧
    (((handleAddTransaction inpTV "g").get ⟨1, by decide⟩).description
        = "TV (2/3)".data) := by
  have h := installment_series_shape inpTV "g" rfl (by decide) (by decide) (by decide)
  refine ⟨h.1, ?_⟩
  have h2 := (h.2 1 (by rw [h.1]; decide)).1
  rw [h2]
  decide

/-! ## Claim C3: only the first-generated occurrence honours the paid flag -/

theorem handleAdd_recurring_eq (inp : AddInput) (freshId : String)
    (hb : ¬(inp.type = TransactionType.expense ∧ 1 < inp.installments))
    (hr : inp.isRecurring = true) :
    handleAddTransaction inp freshId
      = (List.range 12).map fun i =>
          { groupId := some ("grp_" ++ freshId)
            amount := inp.amount
            category := inp.category
            description := inp.description
            date := addMonths inp.date i
            type := inp.type
            isRecurring := true
            isPaid := if i = 0 then inp.isPaid else false } := by
  unfold handleAddTransaction
  rw [if_pos (Or.inr hr), if_neg hb, if_pos hr]

/-- C3: in installment mode and in recurring mode, the first-generated
occurrence carries the caller's chosen paid flag (in installment mode it is
the one at index i = starting installment index) and every later-generated
occurrence has paid flag false. -/
theorem series_paid_flag (inp : AddInput) (freshId : String)
    (hmode : (inp.type = TransactionType.expense ∧ 1 < inp.installments) ∨
      inp.isRecurring = true) :
    ∀ (j : Nat) (hj : j < (handleAddTransaction inp freshId).length),
      ((handleAddTransaction inp freshId).get ⟨j, hj⟩).isPaid
        = if j = 0 then inp.isPaid else false := by
  intro j hj
  by_cases hb : inp.type = TransactionType.expense ∧ 1 < inp.installments
  · have key := handleAdd_installment_eq inp freshId hb.1 hb.2
    rw [List.get_of_eq key]
    simp only [List.get_eq_getElem, List.getElem_map, List.getElem_range, Fin.coe_cast]
    by_cases hj0 : j = 0
    · simp [hj0]
    · rw [if_neg (by omega), if_neg hj0]
  · have hr : inp.isRecurring = true := hmode.resolve_left hb
    have key := handleAdd_recurring_eq inp freshId hb hr
    rw [List.get_of_eq key]
    simp only [List.get_eq_getElem, List.getElem_map, List.getElem_range, Fin.coe_cast]

/-- Witness for C3 at the worked installment example: the second emitted
occurrence is pending even though the caller marked the entry paid. -/
theorem series_paid_flag_witness :
    ((handleAddTransaction inpTV "g").get ⟨1, by decide⟩).isPaid = false := by
  have h := series_paid_flag inpTV "g" (Or.inl ⟨rfl, by decide⟩) 1 (by decide)
  simpa using h

/-! ## Claim C4: when the emitted occurrences carry a group identifier -/

/-- Counterexample to C4 as stated: for an income entry with installment
count 2 and recurrence off, the right-hand side of the claimed equivalence
(installment count > 1 or recurring) holds, yet the single emitted occurrence
carries no group identifier. -/
theorem group_id_iff_cex :
    ¬ (∀ t ∈ handleAddTransaction inpIncomeTwo "g",
        (t.groupId.isSome = true ↔
          (1 < inpIncomeTwo.installments ∨ inpIncomeTwo.isRecurring = true))) := by
  decide

/-- C4 (amended): the emitted occurrences carry a group identifier exactly
when the expander takes a series branch: either installment mode
(flow type expense and installment count > 1) or recurring mode. -/
theorem group_id_iff_mode (inp : AddInput) (freshId : String) :
    ∀ t ∈ handleAddTransaction inp freshId,
      (t.groupId.isSome = true ↔
        ((inp.type = TransactionType.expense ∧ 1 < inp.installments) ∨
          inp.isRecurring = true)) := by
  intro t ht
  by_cases hb : inp.type = TransactionType.expense ∧ 1 < inp.installments
  · rw [handleAdd_installment_eq inp freshId hb.1 hb.2] at ht
    obtain ⟨offset, hof, rfl⟩ := List.mem_map.mp ht
    simpa using Or.inl hb
  · by_cases hr : inp.isRecurring = true
    · rw [handleAdd_recurring_eq inp freshId hb hr] at ht
      obtain ⟨i, hi, rfl⟩ := List.mem_map.mp ht
      simpa using Or.inr hr
    · have key : handleAddTransaction inp freshId
          = [{ groupId := none, amount := inp.amount, category := inp.category,
               description := inp.description, date := inp.date, type := inp.type,
               isRecurring := inp.isRecurring, isPaid := inp.isPaid }] := by
        unfold handleAddTransaction
        rw [if_neg hb, if_neg hr]
      rw [key] at ht
      rw [List.mem_singleton.mp ht]
      simp [hb, hr]

/-- Witness for the amended C4: the first occurrence of the worked installment
example carries a group identifier. -/
theorem group_id_iff_mode_witness :
    ((handleAddTransaction inpTV "g").get ⟨0, by decide⟩).groupId.isSome = true := by
  have h := group_id_iff_mode inpTV "g" ((handleAddTransaction inpTV "g").get ⟨0, by decide⟩)
    (List.get_mem _ _ _)
  exact h.mpr (Or.inl ⟨rfl, by decide⟩)

/-! ## Claim C5: strip-then-reattach round trip of the suffix grammar -/

/-- Counterexample to C5 as stated: for the description `" TV (1/3)"` (base
with leading whitespace), stripping the matched `" (1/3)"` suffix also trims
the base, so reattaching the matched suffix yields `"TV (1/3)"`, not the
original string. -/
theorem suffix_roundtrip_cex :
    ¬ (cleanDesc " TV (1/3)".data ++ matchedSuffix " TV (1/3)".data
        = " TV (1/3)".data) := by
  decide

/-- C5 (amended): stripping the trailing suffix and reattaching the matched
suffix reproduces the original description exactly, provided the stripped
base is unchanged by whitespace trimming and (in the `" (i/total)"` case) the
base does not itself end in the `" (Parcela i)"` pattern, which the stripper
would remove as well. -/
theorem suffix_roundtrip (d b s : List Char) :
    (splitMatch d = some (b, s) → parcelaMatch b = none → trimList b = b →
      cleanDesc d ++ matchedSuffix d = d) ∧
    (parcelaMatch d = some (b, s) → trimList b = b →
      cleanDesc d ++ matchedSuffix d = d) := by
  constructor
  · intro hsp hpm htr
    have hsound : b ++ s = d := by
      simpa using splitMatch_sound hsp
    have h1 : removeSplit d = b := by
      unfold removeSplit
      rw [hsp]
    have h2 : removeParcela b = b := by
      unfold removeParcela
      rw [hpm]
    have h3 : matchedSuffix d = s := by
      unfold matchedSuffix
      rw [hsp]
    rw [cleanDesc, h1, h2, htr, h3, hsound]
  · intro hpm htr
    have hsp : splitMatch d = none := parcela_split_exclusive hpm
    have hsound : b ++ s = d := by
      simpa using parcelaMatch_sound hpm
    have h1 : removeSplit d = d := by
      unfold removeSplit
      rw [hsp]
    have h2 : removeParcela d = b := by
      unfold removeParcela
      rw [hpm]
    have h3 : matchedSuffix d = s := by
      unfold matchedSuffix
      rw [hsp, hpm]
    rw [cleanDesc, h1, h2, htr, h3, hsound]

/-- Witness for the amended C5: `"TV (2/3)"` and `"TV (Parcela 2)"` both
survive the strip-then-reattach round trip. -/
theorem suffix_roundtrip_witness :
    cleanDesc "TV (2/3)".data ++ matchedSuffix "TV (2/3)".data = "TV (2/3)".data ∧
    cleanDesc "TV (Parcela 2)".data ++ matchedSuffix "TV (Parcela 2)".data
      = "TV (Parcela 2)".data := by
  constructor
  · exact (suffix_roundtrip "TV (2/3)".data "TV".data " (2/3)".data).1
      (by decide) (by decide) (by decide)
  · exact (suffix_roundtrip "TV (Parcela 2)".data "TV".data " (Parcela 2)".data).2
      (by decide) (by decide)

/-! ## Claim C2: series-wide edit preserves each sibling's own date and paid flag -/

/-- C2: a series-wide edit on a found target emits one payload per computed
sibling; a sibling other than the target keeps its own date and paid flag
while taking the caller's amount, category, flow type and the caller's base
description with that sibling's own matched suffix reattached; only the
target's payload carries the caller's new date and paid flag. -/
theorem propagated_edit_frame (all : List Transaction) (targetId : String)
    (updates : TxUpdate) (orig : Transaction)
    (hfind : all.find? (fun t => t.id == targetId) = some orig) :
    (transactionsToUpdate all targetId updates true
        = some ((siblingsOf all orig).map fun s => (s.id, mkSiblingUpdate targetId updates s))) ∧
    (∀ sib ∈ siblingsOf all orig, sib.id ≠ targetId →
        (mkSiblingUpdate targetId updates sib).date = sib.date ∧
        (mkSiblingUpdate targetId updates sib).isPaid = sib.isPaid ∧
        (mkSiblingUpdate targetId updates sib).amount = updates.amount ∧
        (mkSiblingUpdate targetId updates sib).category = updates.category ∧
        (mkSiblingUpdate targetId updates sib).type = updates.type ∧
        (mkSiblingUpdate targetId updates sib).description
            = updates.description ++ matchedSuffix sib.description) ∧
    (∀ sib ∈ siblingsOf all orig, sib.id = targetId →
        (mkSiblingUpdate targetId updates sib).date = updates.date ∧
        (mkSiblingUpdate targetId updates sib).isPaid = updates.isPaid) := by
  refine ⟨?_, ?_, ?_⟩
  · unfold transactionsToUpdate
    rw [if_neg (by simp), hfind]
  · intro sib hs hne
    unfold mkSiblingUpdate
    simp [hne]
  · intro sib hs heq
    unfold mkSiblingUpdate
    simp [heq]

/-- Witness for C2 on a two-element group series: editing `"b"` leaves the
sibling `"a"`'s date and paid flag in its payload and reattaches its
`" (1/3)"` suffix to the new base description. -/
theorem propagated_edit_frame_witness :
    (mkSiblingUpdate "b" updSample txA).date = txA.date ∧
    (mkSiblingUpdate "b" updSample txA).isPaid = txA.isPaid ∧
    (mkSiblingUpdate "b" updSample txA).description = "Televisao (1/3)".data := by
  have h := propagated_edit_frame [txA, txB] "b" updSample txB (by decide)
  have h2 := h.2.1 txA (by decide) (by decide)
  refine ⟨h2.1, h2.2.1, ?_⟩
  rw [h2.2.2.2.2.2]
  decide

/-! ## Claim C9: the computed sibling set contains the target -/

/-- C9: for a series edit whose target is found in the collection, the
computed sibling set contains the target occurrence itself, in both the
group-identifier branch and the legacy-heuristic branch. -/
theorem sibling_set_contains_target (all : List Transaction) (targetId : String)
    (orig : Transaction)
    (hfind : all.find? (fun t => t.id == targetId) = some orig) :
    orig ∈ siblingsOf all orig := by
  have horig : orig ∈ all := List.mem_of_find?_eq_some hfind
  unfold siblingsOf
  split
  · refine List.mem_filter.mpr ⟨horig, ?_⟩
    simp
  · refine List.mem_filter.mpr ⟨horig, ?_⟩
    simp only [Bool.and_eq_true, beq_self_eq_true, true_and]
    exact (myIncludes_iff _ _).mpr (cleanDesc_isInf orig.description)

/-- Witness for C9: a legacy occurrence with no group identifier is a member
of its own computed sibling set. -/
theorem sibling_set_contains_target_witness :
    txC ∈ siblingsOf [txA, txC] txC := by
  exact sibling_set_contains_target [txA, txC] "c" txC (by decide)

/-! ## Claim C6: a non-propagated edit touches only the target -/

/-- C6: with the propagate flag false, exactly one update payload is emitted
(the caller's payload, addressed to the target), and in the resulting local
collection (unique ids assumed, as the data model guarantees) the
non-target occurrences are exactly the prior non-target occurrences,
each at its prior value. -/
theorem non_propagated_edit_frame (all : List Transaction) (targetId : String)
    (updates : TxUpdate) (hnodup : (all.map Transaction.id).Nodup) :
    (transactionsToUpdate all targetId updates false = some [(targetId, updates)]) ∧
    (∀ t ∈ handleEditTransactionLocal all targetId updates false,
        t.id ≠ targetId → t ∈ all) ∧
    (∀ t ∈ all, t.id ≠ targetId →
        t ∈ handleEditTransactionLocal all targetId updates false) := by
  have hloc : handleEditTransactionLocal all targetId updates false
      = sortDesc (updateEntry (buildMap all) targetId updates) := rfl
  refine ⟨rfl, ?_, ?_⟩
  · intro t ht hne
    rw [hloc] at ht
    have ht' := updateEntry_mem_rev (sortDesc_mem.mp ht) hne
    exact buildMap_subset ht'
  · intro t ht hne
    rw [hloc]
    apply sortDesc_mem.mpr
    apply updateEntry_mem_of_ne updates _ hne
    rw [buildMap_eq_of_nodup hnodup]
    exact ht

/-- Witness for C6: editing the target `"a"` in a two-element collection
keeps the unrelated occurrence `"c"` in the resulting collection. -/
theorem non_propagated_edit_frame_witness :
    txC ∈ handleEditTransactionLocal [txA, txC] "a" updSample false := by
  exact (non_propagated_edit_frame [txA, txC] "a" updSample (by decide)).2.2
    txC (by decide) (by decide)

/-! ## Claim C7: series edit with a missing target is a silent no-op -/

/-- C7: a propagated edit whose target id is absent from the collection
computes no update payloads (so no persistence call is dispatched) and leaves
the local collection unchanged. -/
theorem missing_target_noop (all : List Transaction) (targetId : String)
    (updates : TxUpdate)
    (hfind : all.find? (fun t => t.id == targetId) = none) :
    (transactionsToUpdate all targetId updates true = none) ∧
    (handleEditTransactionLocal all targetId updates true = all) := by
  have h1 : transactionsToUpdate all targetId updates true = none := by
    unfold transactionsToUpdate
    rw [if_neg (by simp), hfind]
  refine ⟨h1, ?_⟩
  unfold handleEditTransactionLocal
  rw [h1]

/-- Witness for C7: editing the unknown id `"zz"` in a singleton collection
emits nothing and changes nothing. -/
theorem missing_target_noop_witness :
    (transactionsToUpdate [txA] "zz" updSample true = none) ∧
    (handleEditTransactionLocal [txA] "zz" updSample true = [txA]) :=
  missing_target_noop [txA] "zz" updSample (by decide)

/-! ## Claim C10: local edits preserve the set of occurrence identifiers -/

/-- C10: in the no-backend edit path, applying the computed update payloads
preserves the set of occurrence identifiers exactly: an edit never inserts a
new occurrence and never deletes one. -/
theorem local_edit_preserves_ids (all : List Transaction) (targetId : String)
    (updates : TxUpdate) (updateSeries : Bool) (s : String) :
    s ∈ (handleEditTransactionLocal all targetId updates updateSeries).map Transaction.id
      ↔ s ∈ all.map Transaction.id := by
  unfold handleEditTransactionLocal
  cases hc : transactionsToUpdate all targetId updates updateSeries with
  | none => rfl
  | some ps =>
    simp only
    rw [((sortDesc_perm _).map Transaction.id).mem_iff, applyPayloads_ids]
    exact buildMap_ids_mem

/-- Witness for C10: after a local edit of `"a"`, the id `"c"` is still
present and no other id appears. -/
theorem local_edit_preserves_ids_witness :
    "c" ∈ (handleEditTransactionLocal [txA, txC] "a" updSample false).map Transaction.id := by
  exact (local_edit_preserves_ids [txA, txC] "a" updSample false "c").mpr (by decide)

/-! ## Claim C8: reconciliation of propagation results -/

/-- Counterexample to C8 as stated: when every dispatched update fails (all
results null), the collection is left exactly as it was, so it is not in
general sorted by date descending afterwards. -/
theorem reconcile_sorted_cex :
    ¬ List.Sorted dateGe (reconcileResults [txA, txB] [none]) := by
  decide

/-- C8 (amended): provided at least one update succeeded, reconciliation
merges every successful (non-null) result into the collection keyed by
identifier with insert-or-replace semantics, keeps every occurrence whose
update failed at its prior local value, and the resulting collection is
sorted by date descending.  (When every update fails the collection is left
untouched, in its prior order.)  Unique identifiers are assumed, as the data
model guarantees. -/
theorem reconcile_merge (prev : List Transaction) (results : List (Option Transaction))
    (hsucc : results.any Option.isSome = true)
    (hprev : (prev.map Transaction.id).Nodup)
    (hres : (successIds results).Nodup) :
    (∀ t : Transaction, some t ∈ results → t ∈ reconcileResults prev results) ∧
    (∀ t ∈ prev, t.id ∉ successIds results → t ∈ reconcileResults prev results) ∧
    List.Sorted dateGe (reconcileResults prev results) := by
  have hrec : reconcileResults prev results
      = sortDesc (mergeResults (buildMap prev) results) := by
    unfold reconcileResults
    rw [if_pos hsucc]
  refine ⟨?_, ?_, ?_⟩
  · intro t ht
    rw [hrec]
    exact sortDesc_mem.mpr (mergeResults_mem_success ht hres)
  · intro t ht hnot
    rw [hrec]
    refine sortDesc_mem.mpr (mergeResults_mem_of_notin ?_ hnot)
    rw [buildMap_eq_of_nodup hprev]
    exact ht
  · rw [hrec]
    exact sortDesc_sorted _

/-- Witness for the amended C8: one successful result is merged into the
collection, replacing the stale occurrence with the same identifier. -/
theorem reconcile_merge_witness :
    { txA with amount := 7 } ∈ reconcileResults [txA] [some { txA with amount := 7 }] := by
  exact (reconcile_merge [txA] [some { txA with amount := 7 }]
    (by decide) (by decide) (by decide)).1 _ (by decide)
